import Mathlib

/-!
Verification development for the InferenceMAX repository
(`generate_html.py` and `scripts/compact_schema_all_examples.py`).

The Python (and embedded JavaScript) code is shallowly embedded below:
JSON values become the inductive `JVal`, Python dicts become insertion
ordered association lists, and every operation the claims touch is
translated into an executable Lean function.  Floating point numbers are
modelled as finite decimals (no claim depends on IEEE rounding), and Python
string rendering of container values is modelled only up to the corners
no claim exercises (each such boundary carries a comment).
-/

set_option maxHeartbeats 1000000
set_option synthInstance.maxSize 2000

namespace InfMax

/-- A decimal rational `num / 10 ^ exp`, the model of Python/JS float
values.  Every float the two scripts produce or compare is a finite
decimal, so this carries exactly the needed arithmetic while reducing
inside `decide` (general `Rat` arithmetic is `@[irreducible]` here).
Values built through `Dec.canon` are canonical: `exp = 0` or
`num` not divisible by ten, making structural equality value equality. -/
structure Dec where
  num : Int
  exp : Nat
deriving Repr, DecidableEq

/-- Strip trailing factors of ten, fuel-indexed (fuel `exp` suffices). -/
def decCanonF : Nat → Int → Nat → Dec
  | 0, n, e => { num := n, exp := e }
  | _ + 1, n, 0 => { num := n, exp := 0 }
  | f + 1, n, e + 1 =>
    if n % 10 = 0 then decCanonF f (n / 10) e else { num := n, exp := e + 1 }

def Dec.canon (n : Int) (e : Nat) : Dec := decCanonF e n e

/-- Value of an integer as a decimal. -/
def Dec.ofInt (n : Int) : Dec := { num := n, exp := 0 }

/-- Cross-multiplied order (denominators `10 ^ exp` are positive). -/
def Dec.le (a b : Dec) : Bool :=
  decide (a.num * (10 : Int) ^ b.exp ≤ b.num * (10 : Int) ^ a.exp)

def Dec.lt (a b : Dec) : Bool :=
  decide (a.num * (10 : Int) ^ b.exp < b.num * (10 : Int) ^ a.exp)

/-- Cross-multiplied value equality (Python `==` across numeric types). -/
def Dec.eqv (a b : Dec) : Bool :=
  decide (a.num * (10 : Int) ^ b.exp = b.num * (10 : Int) ^ a.exp)

/-- Truncation toward zero (Python `int(float)`). -/
def Dec.trunc (a : Dec) : Int := a.num.tdiv ((10 : Int) ^ a.exp)

/-- A parsed JSON value, as manipulated by both scripts.  Python's separate
`bool`/`int`/`float` runtime types are kept apart, mirroring
`detect_type` in `compact_schema_all_examples.py`. -/
inductive JVal where
  | null : JVal
  | bool (b : Bool) : JVal
  | int (n : Int) : JVal
  | float (d : Dec) : JVal
  | str (s : String) : JVal
  | arr (xs : List JVal) : JVal
  | obj (o : List (String × JVal)) : JVal

mutual

/-- Structural equality test on JSON values (used for Python `==` on the
scalar/observable values the scripts compare; see `pyEqJ` for the
numeric cross-type cases). -/
def beqJ : JVal → JVal → Bool
  | .null, .null => true
  | .bool a, .bool b => decide (a = b)
  | .int a, .int b => decide (a = b)
  | .float a, .float b => decide (a = b)
  | .str a, .str b => decide (a = b)
  | .arr a, .arr b => beqLJ a b
  | .obj a, .obj b => beqOJ a b
  | _, _ => false

def beqLJ : List JVal → List JVal → Bool
  | [], [] => true
  | x :: xs, y :: ys => beqJ x y && beqLJ xs ys
  | _, _ => false

def beqOJ : List (String × JVal) → List (String × JVal) → Bool
  | [], [] => true
  | (k1, v1) :: xs, (k2, v2) :: ys =>
      decide (k1 = k2) && beqJ v1 v2 && beqOJ xs ys
  | _, _ => false

end

mutual

theorem beqJ_iff : ∀ a b : JVal, beqJ a b = true ↔ a = b
  | .null, .null => by simp [beqJ]
  | .bool a, .bool b => by simp [beqJ]
  | .int a, .int b => by simp [beqJ]
  | .float a, .float b => by simp [beqJ]
  | .str a, .str b => by simp [beqJ]
  | .arr a, .arr b => by rw [beqJ, beqLJ_iff]; simp
  | .obj a, .obj b => by rw [beqJ, beqOJ_iff]; simp
  | .null, .bool _ | .null, .int _ | .null, .float _ | .null, .str _
  | .null, .arr _ | .null, .obj _
  | .bool _, .null | .bool _, .int _ | .bool _, .float _ | .bool _, .str _
  | .bool _, .arr _ | .bool _, .obj _
  | .int _, .null | .int _, .bool _ | .int _, .float _ | .int _, .str _
  | .int _, .arr _ | .int _, .obj _
  | .float _, .null | .float _, .bool _ | .float _, .int _ | .float _, .str _
  | .float _, .arr _ | .float _, .obj _
  | .str _, .null | .str _, .bool _ | .str _, .int _ | .str _, .float _
  | .str _, .arr _ | .str _, .obj _
  | .arr _, .null | .arr _, .bool _ | .arr _, .int _ | .arr _, .float _
  | .arr _, .str _ | .arr _, .obj _
  | .obj _, .null | .obj _, .bool _ | .obj _, .int _ | .obj _, .float _
  | .obj _, .str _ | .obj _, .arr _ => by simp [beqJ]

theorem beqLJ_iff : ∀ a b : List JVal, beqLJ a b = true ↔ a = b
  | [], [] => by simp [beqLJ]
  | x :: xs, y :: ys => by
      rw [beqLJ, Bool.and_eq_true, beqJ_iff, beqLJ_iff]; simp
  | [], _ :: _ => by simp [beqLJ]
  | _ :: _, [] => by simp [beqLJ]

theorem beqOJ_iff : ∀ a b : List (String × JVal), beqOJ a b = true ↔ a = b
  | [], [] => by simp [beqOJ]
  | (k1, v1) :: xs, (k2, v2) :: ys => by
      rw [beqOJ, Bool.and_eq_true, Bool.and_eq_true, beqJ_iff, beqOJ_iff]
      simp
  | [], _ :: _ => by simp [beqOJ]
  | (_, _) :: _, [] => by simp [beqOJ]

end

instance : DecidableEq JVal := fun a b => decidable_of_iff _ (beqJ_iff a b)

/-- A record / Python dict: insertion-ordered association list. -/
abbrev Record := List (String × JVal)

/-- Python `k in d` (dict key containment). -/
def hasKeyR (r : Record) (k : String) : Bool :=
  r.any (fun kv => kv.1 = k)

/-- Python `d[k]` / `d.get(k)`: first binding wins (dicts never hold
duplicate keys, so this is exact on reachable values). -/
def lookupR : Record → String → Option JVal
  | [], _ => none
  | (k2, v) :: rest, k => if k2 = k then some v else lookupR rest k

/-- Python `d[k] = v`: update the existing binding in place, else append
at the end (dict insertion order). -/
def setR : Record → String → JVal → Record
  | [], k, v => [(k, v)]
  | kv :: rest, k, v =>
    if kv.1 = k then (k, v) :: rest else kv :: setR rest k v

/-! ### Character and string helpers

The Python code works on `str`; the embedding manipulates `List Char`
(`String.data`) so that everything reduces by `decide`.  Unicode-aware
operations (`str.lower`, `str.strip`, `\s`) are modelled on their ASCII
fragment; every value the scripts and the claims exercise is ASCII. -/

/-- ASCII whitespace, the fragment of Python's `str.strip()` / `\s` class
exercised by the repository's data. -/
def isWsChar (c : Char) : Bool :=
  c = ' ' || c = '\t' || c = '\n' || c = '\r' || c = '\x0b' || c = '\x0c'

def isDigitC (c : Char) : Bool := '0' ≤ c && c ≤ '9'

/-- `str.lower()` on the ASCII letters (`Char.toLower` is exactly the
ASCII-range lowering). -/
def asciiLowerC (c : Char) : Char := Char.toLower c

def asciiLowerL (cs : List Char) : List Char := cs.map asciiLowerC

/-- `str.strip()` (whitespace from both ends). -/
def trimWs (cs : List Char) : List Char :=
  ((cs.dropWhile isWsChar).reverse.dropWhile isWsChar).reverse

/-- `str.strip("-")`. -/
def stripDashes (cs : List Char) : List Char :=
  ((cs.dropWhile (fun c => c = '-')).reverse.dropWhile (fun c => c = '-')).reverse

/-- `startsWithL needle hay`: `hay` begins with `needle`. -/
def startsWithL : List Char → List Char → Bool
  | [], _ => true
  | _ :: _, [] => false
  | a :: as, b :: bs => a = b && startsWithL as bs

/-- Python `needle in hay` on strings (substring containment). -/
def containsSub (needle : List Char) : List Char → Bool
  | [] => needle.isEmpty
  | c :: rest => startsWithL needle (c :: rest) || containsSub needle rest

/-- Lexicographic comparison by code point: Python `<` on `str`,
and the model of JavaScript `localeCompare` (locale collation is modelled
as code-point order; all compared values are ASCII). -/
def lexLe : List Char → List Char → Bool
  | [], _ => true
  | _ :: _, [] => false
  | a :: as, b :: bs => if a = b then lexLe as bs else decide (a < b)

def strLe (a b : String) : Bool := lexLe a.data b.data

/-- Stable insertion into a sorted list (model of Python `sorted` /
JavaScript `Array.prototype.sort`, both stable). -/
def insertSorted (le : α → α → Bool) (x : α) : List α → List α
  | [] => [x]
  | y :: ys => if le x y then x :: y :: ys else y :: insertSorted le x ys

def insertionSortBy (le : α → α → Bool) (l : List α) : List α :=
  l.foldr (insertSorted le) []

def sortStrs (l : List String) : List String := insertionSortBy strLe l

/-! ### Numeric parsing (Python `int()`, `float()`; JS `Number()`)

The decimal grammars are implemented; Python digit-group underscores,
`inf`/`nan`, and the JS hex/octal/binary and `Infinity` forms are not
modelled (no claim and no evaluated input uses them — floats are
rationals here, so IEEE specials have no denotation anyway). -/

def digitVal (c : Char) : Nat := c.toNat - '0'.toNat

def digitsToNatGo (acc : Nat) : List Char → Option Nat
  | [] => some acc
  | c :: rest => if isDigitC c then digitsToNatGo (acc * 10 + digitVal c) rest else none

/-- All-digits string to `Nat`; `none` when empty or a non-digit occurs. -/
def digitsToNat (cs : List Char) : Option Nat :=
  match cs with
  | [] => none
  | _ => digitsToNatGo 0 cs

/-- Python `int(s)` for a string argument. -/
def pyIntParse (cs : List Char) : Option Int :=
  match trimWs cs with
  | '+' :: rest => (digitsToNat rest).map Int.ofNat
  | '-' :: rest => (digitsToNat rest).map (fun n => -(n : Int))
  | rest => (digitsToNat rest).map Int.ofNat

/-- Leading run of digits and the remainder. -/
def splitDigits : List Char → List Char × List Char
  | [] => ([], [])
  | c :: rest =>
    if isDigitC c then
      let (ds, r) := splitDigits rest
      (c :: ds, r)
    else ([], c :: rest)

def digitsVal (cs : List Char) : Nat := cs.foldl (fun a c => a * 10 + digitVal c) 0

/-- Optional exponent part `[eE][+-]?digits` (empty means exponent 0). -/
def expPart : List Char → Option Int
  | [] => some 0
  | c :: rest =>
    if c = 'e' || c = 'E' then
      match rest with
      | '+' :: ds => (digitsToNat ds).map Int.ofNat
      | '-' :: ds => (digitsToNat ds).map (fun n => -(n : Int))
      | ds => (digitsToNat ds).map Int.ofNat
    else none

/-- Combine an unsigned mantissa `m / 10 ^ k` with a decimal exponent. -/
def decOfParts (m : Nat) (k : Nat) (e : Int) : Dec :=
  match e with
  | .ofNat p => Dec.canon ((m : Int) * (10 : Int) ^ p) k
  | .negSucc p => Dec.canon (m : Int) (k + (p + 1))

/-- Unsigned decimal float body: `digits [. digits] [exp]` or `. digits [exp]`. -/
def floatBody (cs : List Char) : Option Dec :=
  let (ip, rest) := splitDigits cs
  match rest with
  | '.' :: rest2 =>
    let (fp, rest3) := splitDigits rest2
    if ip.isEmpty && fp.isEmpty then none
    else
      (expPart rest3).map fun e =>
        decOfParts (digitsVal ip * 10 ^ fp.length + digitsVal fp) fp.length e
  | rest2 =>
    if ip.isEmpty then none
    else (expPart rest2).map fun e => decOfParts (digitsVal ip) 0 e

def decNegate (d : Dec) : Dec := { d with num := -d.num }

/-- Python `float(s)` for a string argument. -/
def pyFloatParse (cs : List Char) : Option Dec :=
  match trimWs cs with
  | '+' :: rest => floatBody rest
  | '-' :: rest => (floatBody rest).map decNegate
  | rest => floatBody rest

/-- JavaScript `Number(s)` for a string: trimmed empty string is `0`,
otherwise the decimal grammar; `none` denotes NaN. -/
def jsNumParse (cs : List Char) : Option Dec :=
  match trimWs cs with
  | [] => some (Dec.ofInt 0)
  | '+' :: rest => floatBody rest
  | '-' :: rest => (floatBody rest).map decNegate
  | rest => floatBody rest

/-! ### Python value primitives -/

def natToChars (n : Nat) : List Char := Nat.toDigits 10 n

def intToChars (n : Int) : List Char :=
  if n < 0 then '-' :: natToChars n.natAbs else natToChars n.natAbs

/-- Digit string of `n` left-padded with zeros to width `w`. -/
def natCharsPad (n w : Nat) : List Char :=
  let ds := natToChars n
  List.replicate (w - ds.length) '0' ++ ds

/-- Rendering of a float value, modelling Python `str(float)` on
finite decimals (`str(3.0) = "3.0"`, `str(3.7) = "3.7"`); the
shortest-roundtrip behaviour of the exact IEEE repr is not modelled and
no claim evaluates it. -/
def floatToChars (d : Dec) : List Char :=
  let sign : List Char := if d.num < 0 then ['-'] else []
  let a := d.num.natAbs
  let ip := a / 10 ^ d.exp
  let fr := a % 10 ^ d.exp
  sign ++ natToChars ip ++
    '.' :: (if d.exp = 0 then ['0'] else natCharsPad fr d.exp)

/-- Python `str(v)`.  The `repr`-style rendering of list/dict containers
(quoting, escaping) is not modelled: the scripts only apply `str` to the
`hw`/`precision`/`tp`/`conc`/model fields, which are scalars in every
dataset and in every claim. -/
def pyStrL : JVal → List Char
  | .null => "None".data
  | .bool true => "True".data
  | .bool false => "False".data
  | .int n => intToChars n
  | .float q => floatToChars q
  | .str s => s.data
  | .arr _ => "[...]".data
  | .obj _ => "{...}".data

/-- Python truthiness (`if not raw`, `raw or ""`). -/
def pyTruthy : JVal → Bool
  | .null => false
  | .bool b => b
  | .int n => decide (n ≠ 0)
  | .float d => decide (d.num ≠ 0)
  | .str s => decide (s ≠ "")
  | .arr xs => decide (xs ≠ [])
  | .obj o => decide (o ≠ [])

/-- Numeric value of a Python number (`int`/`float`; `bool` counts as a
number for `==` purposes: `True == 1`). -/
def numVal : JVal → Option Dec
  | .int n => some (Dec.ofInt n)
  | .float d => some d
  | .bool b => some (Dec.ofInt (if b then 1 else 0))
  | _ => none

/-- Python `==`: numbers compare by value across `bool`/`int`/`float`;
other values structurally.  (Cross-type numeric equality nested inside
containers is approximated structurally; no compared value in the
scripts nests numbers inside containers.) -/
def pyEqJ (a b : JVal) : Bool :=
  match numVal a, numVal b with
  | some x, some y => Dec.eqv x y
  | _, _ => decide (a = b)

/-- Python dict `==`: same key set, values `==` key-wise. -/
def pyEqRec (r1 r2 : Record) : Bool :=
  r1.all (fun kv => hasKeyR r2 kv.1) &&
  r2.all (fun kv =>
    match lookupR r1 kv.1, lookupR r2 kv.1 with
    | some v1, some v2 => pyEqJ v1 v2
    | _, _ => false)

/-- `v in (None, "")` (Python `==`-based membership). -/
def inNoneEmpty (v : JVal) : Bool :=
  match v with
  | .null => true
  | .str s => decide (s = "")
  | _ => false

/-- Python `int(v)` on a value: identity on ints, truncation toward zero
on floats, `0/1` on bools, the decimal parse on strings, failure
(`TypeError`/`ValueError`) otherwise. -/
def pyIntOf : JVal → Option Int
  | .int n => some n
  | .bool b => some (if b then 1 else 0)
  | .float d => some d.trunc
  | .str s => pyIntParse s.data
  | _ => none

/-- Python `float(v)` on a value. -/
def pyFloatOf : JVal → Option Dec
  | .int n => some (Dec.ofInt n)
  | .bool b => some (Dec.ofInt (if b then 1 else 0))
  | .float d => some d
  | .str s => pyFloatParse s.data
  | _ => none

/-! ### `generate_html.py`: record normalization -/

/-- The mapping-typed elements of a list (`[it for it in l if isinstance(it, dict)]`). -/
def dictElems (xs : List JVal) : List Record :=
  xs.filterMap fun v => match v with | .obj o => some o | _ => none

/-- `normalize_records_from_json` (`generate_html.py`): the ordered
wrapper-key walk over a mapping, element filtering for sequences. -/
def normalize_records_from_json (j : JVal) : List Record :=
  match j with
  | .null => []
  | .arr xs => dictElems xs
  | .obj o => wrapperWalk o wrapperKeys
  | _ => []
where
  wrapperKeys : List String := ["results", "data", "records", "items", "files"]
  wrapperWalk (o : Record) : List String → List Record
    | [] => [o]
    | k :: ks =>
      match lookupR o k with
      | some (.arr xs) => dictElems xs
      | _ => wrapperWalk o ks

/-- `coerce_record_types`, step "try coerce tp, conc to ints if possible":
`int(r[k])` first, `float(r[k])` on failure, left unchanged when both fail. -/
def coerceIntKey (r : Record) (k : String) : Record :=
  match lookupR r k with
  | none => r
  | some v =>
    if inNoneEmpty v then r
    else
      match pyIntOf v with
      | some n => setR r k (.int n)
      | none =>
        match pyFloatOf v with
        | some q => setR r k (.float q)
        | none => r

/-- `coerce_record_types`, final loop body: metric fields that are strings
are parsed as `float` when a `.` or `e` occurs, as `int` otherwise. -/
def coerceMetricKey (r : Record) (k : String) : Record :=
  if k = "tp" || k = "conc" || k = "hw" || k = "model" || k = "precision" ||
     k = "framework" then r
  else
    match lookupR r k with
    | some (.str s) =>
      if containsSub ['.'] s.data || containsSub ['e'] (asciiLowerL s.data) then
        match pyFloatParse s.data with
        | some q => setR r k (.float q)
        | none => r
      else
        match pyIntParse s.data with
        | some n => setR r k (.int n)
        | none => r
    | _ => r

/-- `coerce_record_types` (`generate_html.py`): hw aliasing and lowering,
precision defaulting, `tp`/`conc` int coercion, metric string coercion. -/
def coerce_record_types (r : Record) : Record :=
  let r :=
    if !hasKeyR r "hw" && hasKeyR r "hardware" then
      setR r "hw" ((lookupR r "hardware").getD .null)
    else r
  let r :=
    match lookupR r "hw" with
    | some v =>
      if v = .null then r
      else setR r "hw" (.str (String.mk (asciiLowerL (pyStrL v))))
    | none => r
  let r :=
    match lookupR r "precision" with
    | none => setR r "precision" (.str "fp8")
    | some v =>
      if inNoneEmpty v then setR r "precision" (.str "fp8")
      else setR r "precision" (.str (String.mk (asciiLowerL (pyStrL v))))
  let r := coerceIntKey r "tp"
  let r := coerceIntKey r "conc"
  (r.map Prod.fst).foldl coerceMetricKey r

/-! ### `generate_html.py`: model-name canonicalization

The three regexes `_vendor_prefix_re`, `_suffix_re`, `_clean_re` and the
pattern rules of `canonicalize_model_name` are implemented as executable
string functions with the semantics of the Python patterns (the input is
already lower-cased when they run, so `re.IGNORECASE` is inert; `$`
means end-of-string because the input was `strip()`ped). -/

/-- The literal vendor alternatives of `_vendor_prefix_re`. -/
def vendorLits : List (List Char) :=
  ["nvidia/".data, "amd/".data, "deepseek-ai/".data, "openai/".data]

/-- The `/mnt/.*?/models/` alternative: after `/mnt/`, the non-greedy gap
runs to the first `/models/` occurrence and may not contain a newline. -/
def mntModelsDrop : List Char → Option (List Char)
  | [] => none
  | c :: rest =>
    if startsWithL ("/models/".data) (c :: rest) then some ((c :: rest).drop 8)
    else if c = '\n' then none
    else mntModelsDrop rest

/-- `_vendor_prefix_re.sub("", s)`: anchored at the start, so at most one
substitution. -/
def stripVendor (cs : List Char) : List Char :=
  match vendorLits.find? (fun p => startsWithL p cs) with
  | some p => cs.drop p.length
  | none =>
    if startsWithL ("/mnt/".data) cs then
      match mntModelsDrop (cs.drop 5) with
      | some rest => rest
      | none => cs
    else cs

/-- The fixed tag alternatives of `_suffix_re`. -/
def sufTags : List (List Char) :=
  ["fp8".data, "fp4".data, "mxfp4".data, "mxpf4".data, "kv".data, "preview".data]

/-- Remainders after consuming one digit or more (`\d+`, every split). -/
def digitRests : List Char → List (List Char)
  | [] => []
  | c :: rest => if isDigitC c then rest :: digitRests rest else []

/-- Remainders after one tag (`fp8|fp4|mxfp4|mxpf4|kv|preview|v\d+|-v\d+`). -/
def tagRests (cs : List Char) : List (List Char) :=
  (sufTags.filterMap fun t => if startsWithL t cs then some (cs.drop t.length) else none)
    ++ (match cs with
        | 'v' :: rest => digitRests rest
        | _ => [])
    ++ (match cs with
        | '-' :: 'v' :: rest => digitRests rest
        | _ => [])

/-- Remainders after one `[-_/]?`-prefixed tag unit. -/
def unitRests (cs : List Char) : List (List Char) :=
  tagRests cs ++
    (match cs with
     | c :: rest => if c = '-' || c = '_' || c = '/' then tagRests rest else []
     | [] => [])

/-- Fuel-indexed membership of `cs` in the language `(unit)+` anchored at
the end of the string; every unit consumes a character, so fuel
`cs.length` is exact. -/
def sufMatchF : Nat → List Char → Bool
  | 0, _ => false
  | fuel + 1, cs => (unitRests cs).any fun rest => rest.isEmpty || sufMatchF fuel rest

def sufMatch (cs : List Char) : Bool := sufMatchF cs.length cs

/-- `_suffix_re.sub("", s)`: the match is anchored to `$`, so the leftmost
match is the longest strippable suffix; nothing else in the string moves. -/
def stripSufTags (cs : List Char) : List Char :=
  match (List.range cs.length).find? (fun p => sufMatch (cs.drop p)) with
  | some p => cs.take p
  | none => cs

/-- Collapse every maximal run of `p`-characters into the single
character `rep` (second argument tracks being inside a run). -/
def collapseRuns (p : Char → Bool) (rep : Char) : List Char → Bool → List Char
  | [], _ => []
  | c :: rest, inRun =>
    if p c then
      if inRun then collapseRuns p rep rest true
      else rep :: collapseRuns p rep rest true
    else c :: collapseRuns p rep rest false

/-- `s.replace("\\", "-").replace("/", "-")`. -/
def sepToDash (c : Char) : Char := if c = '\\' || c = '/' then '-' else c

/-- The full cleaning pipeline of `canonicalize_model_name` applied to the
stripped raw name: lower, vendor strip, suffix strip, separator
normalization (`_clean_re.sub("-", ...)`, `-{2,}` collapse, dash strip). -/
def cleanName (cs : List Char) : List Char :=
  let cs := asciiLowerL cs
  let cs := stripVendor cs
  let cs := stripSufTags cs
  let cs := cs.map sepToDash
  let cs := collapseRuns (fun c => c = '_' || isWsChar c) '-' cs false
  let cs := collapseRuns (fun c => c = '-') '-' cs false
  stripDashes cs

/-- Remainders after an occurrence of `needle` scanning from anywhere
(`re.search` start, unconstrained gap). -/
def occAnywhere (needle : List Char) : List Char → List (List Char)
  | [] => []
  | c :: rest =>
    (if startsWithL needle (c :: rest) then [(c :: rest).drop needle.length] else [])
      ++ occAnywhere needle rest

/-- Remainders after an occurrence of `needle` reachable through a
newline-free gap (a `.*` gap: `.` does not match a newline). -/
def occNoNl (needle : List Char) : List Char → List (List Char)
  | [] => []
  | c :: rest =>
    (if startsWithL needle (c :: rest) then [(c :: rest).drop needle.length] else [])
      ++ (if c = '\n' then [] else occNoNl needle rest)

/-- Match the remaining literal parts separated by `.*` gaps. -/
def matchParts : List (List Char) → List Char → Bool
  | [], _ => true
  | needle :: ps, cs => (occNoNl needle cs).any (matchParts ps)

/-- `re.search` of a `lit(.*lit)*` pattern. -/
def ruleSearch (first : List Char) (restParts : List (List Char)) (cs : List Char) : Bool :=
  (occAnywhere first cs).any (matchParts restParts)

def llamaRule (cs : List Char) : Bool :=
  ruleSearch ("llama".data) [("3".data), ("70b".data), ("instruct".data)] cs

def deepseekRule (cs : List Char) : Bool :=
  ruleSearch ("deepseek".data) [("r1".data), ("0528".data)] cs

def gptOssRule (cs : List Char) : Bool :=
  containsSub ("gpt-oss-120b".data) cs || containsSub ("gptoss-120b".data) cs

/-- `_CANONICAL_MAP` targets (inlined at the match sites below, as in the
source). -/
def CANONICAL_MAP : List (String × String) :=
  [("llama-3.3-70b-instruct", "Llama-3.3-70B-Instruct"),
   ("deepseek-r1-0528", "DeepSeek-R1-0528"),
   ("gpt-oss-120b", "gpt-oss-120b")]

def DISPLAY_MAP : List (String × String) :=
  [("Llama-3.3-70B-Instruct", "Llama-3.3-70B-Instruct"),
   ("DeepSeek-R1-0528", "DeepSeek-R1-0528"),
   ("gpt-oss-120b", "gpt-oss 120B")]

/-- `canonicalize_model_name` (`generate_html.py`).  The argument is the
raw value passed by the callers (`r.get("model") or ""`, a `FILE_MAP`
entry, or an inferred stem); falsy input short-circuits to `"unknown"`. -/
def canonicalize_model_name (raw : JVal) : String :=
  if !pyTruthy raw then "unknown"
  else
    let s := trimWs (pyStrL raw)
    let s_low := cleanName s
    if llamaRule s_low then "Llama-3.3-70B-Instruct"
    else if deepseekRule s_low then "DeepSeek-R1-0528"
    else if gptOssRule s_low then "gpt-oss-120b"
    else if s_low.isEmpty then String.mk s
    else String.mk s_low

/-- `display_name_for_canonical` (`generate_html.py`). -/
def display_name_for_canonical (canon : String) : String :=
  match DISPLAY_MAP.find? (fun kv => kv.1 = canon) with
  | some kv => kv.2
  | none => String.mk (canon.data.map fun c => if c = '-' then ' ' else c)

/-! ### `generate_html.py`: client payload construction -/

/-- `FILE_MAP`: filename-substring key to (model, isl, osl). -/
def FILE_MAP : List (String × (String × String × String)) :=
  [("results_70b_1k1k", ("Llama-3.3-70B-Instruct", "1k", "1k")),
   ("results_70b_8k1k", ("Llama-3.3-70B-Instruct", "8k", "1k")),
   ("results_70b_1k8k", ("Llama-3.3-70B-Instruct", "1k", "8k")),
   ("results_dsr1_1k1k", ("DeepSeek-R1-0528", "1k", "1k")),
   ("results_dsr1_8k1k", ("DeepSeek-R1-0528", "8k", "1k")),
   ("results_dsr1_1k8k", ("DeepSeek-R1-0528", "1k", "8k")),
   ("results_gptoss_1k1k", ("gpt-oss-120b", "1k", "1k")),
   ("results_gptoss_8k1k", ("gpt-oss-120b", "8k", "1k")),
   ("results_gptoss_1k8k", ("gpt-oss-120b", "1k", "8k"))]

def EMBED_RECORDS_LIMIT : Nat := 5000

/-- `next((k for k in FILE_MAP if k in p.name), None)`: the first map key
that is a substring of the file name. -/
def findMapKey (filename : String) : Option String :=
  match FILE_MAP.find? (fun kv => containsSub kv.1.data filename.data) with
  | some kv => some kv.1
  | none => none

/-- `r.setdefault(k, v)`. -/
def setdefaultR (r : Record) (k : String) (v : JVal) : Record :=
  if hasKeyR r k then r else r ++ [(k, v)]

/-- The `FILE_MAP` metadata injection loop of `build_client_payload`. -/
def injectMeta (key : Option String) (r : Record) : Record :=
  match key with
  | none => r
  | some k =>
    match FILE_MAP.find? (fun kv => kv.1 = k) with
    | none => r
    | some (_, (m, isl, osl)) =>
      let r := setdefaultR r "model" (.str m)
      let r := setdefaultR r "isl" (.str isl)
      let r := setdefaultR r "osl" (.str osl)
      setdefaultR r "file_key" (.str k)

/-- `r.get("model") or ""`. -/
def modelOrEmpty (r : Record) : JVal :=
  match lookupR r "model" with
  | some v => if pyTruthy v then v else .str ""
  | none => .str ""

/-- The derived-field loop of `build_client_payload`:
`_model_canonical`, `_model_display`, `model_original`. -/
def addDerived (r : Record) : Record :=
  let orig := modelOrEmpty r
  let canon := canonicalize_model_name orig
  let r := setR r "_model_canonical" (.str canon)
  let r := setR r "_model_display" (.str (display_name_for_canonical canon))
  setR r "model_original" orig

/-- The per-file record pipeline of `build_client_payload`: extraction,
metadata injection, coercion, canonical/display derivation. -/
def clientRecs (filename : String) (j : JVal) : List Record :=
  let key := findMapKey filename
  let recs := normalize_records_from_json j
  let recs := recs.map (injectMeta key)
  let recs := recs.map coerce_record_types
  recs.map addDerived

/-- Column list: `pd.json_normalize(recs).columns` for the flat records
the pipeline produces — the union of keys in order of first appearance
(dotted flattening of nested values is not exercised by flat records). -/
def unionCols (recs : List Record) : List String :=
  recs.foldl (fun acc r => r.foldl (fun a kv => if a.contains kv.1 then a else a ++ [kv.1]) acc) []

/-- `p.stem`: file name without its final suffix. -/
def stemOf (filename : String) : String :=
  if containsSub ['.'] filename.data then
    String.mk ((filename.data.reverse.dropWhile (fun c => c ≠ '.')).drop 1).reverse
  else filename

/-- `re.sub(r'[-_.]+', ' ', stem)`. -/
def stemSpaces (cs : List Char) : List Char :=
  collapseRuns (fun c => c = '-' || c = '_' || c = '.') ' ' cs false

/-- One entry of the client map (`columns`, `record_count`, `filename`,
`records` — `none` models JSON `null` for deferred entries — and `sample`). -/
structure ClientEntry where
  columns : List String
  record_count : Nat
  filename : String
  records : Option (List Record)
  sample : Record
deriving DecidableEq

/-- The deferred-branch synthetic sample of `build_client_payload`. -/
def lazySample (filename : String) (key : Option String) : Record :=
  match key with
  | some k =>
    match FILE_MAP.find? (fun kv => kv.1 = k) with
    | some (_, (m, isl, osl)) =>
      let canon := canonicalize_model_name (.str m)
      [("_model_canonical", .str canon),
       ("_model_display", .str (display_name_for_canonical canon)),
       ("model", .str m), ("isl", .str isl), ("osl", .str osl)]
    | none => []
  | none =>
    let inferred := String.mk (stemSpaces (stemOf filename).data)
    let canon := canonicalize_model_name (.str inferred)
    [("_model_canonical", .str canon),
     ("_model_display", .str (display_name_for_canonical canon)),
     ("model", .str inferred)]

/-- The entry construction of `build_client_payload` (lines deciding the
embed tier), given the processed records of one file. -/
def buildEntryFromRecs (filename : String) (key : Option String) (recs : List Record) :
    ClientEntry :=
  let cols := if recs.isEmpty then [] else unionCols recs
  if recs.length ≤ EMBED_RECORDS_LIMIT then
    { columns := cols, record_count := recs.length, filename := filename,
      records := some recs,
      sample := match recs with | r :: _ => r | [] => [] }
  else
    { columns := cols, record_count := recs.length, filename := filename,
      records := none, sample := lazySample filename key }

/-- One file's entry of `build_client_payload`. -/
def build_client_payload_entry (filename : String) (j : JVal) : ClientEntry :=
  buildEntryFromRecs filename (findMapKey filename) (clientRecs filename j)

/-! ### `generate_html.py`: embedded JavaScript `buildTraces`

The chart-series builder is JavaScript inside the generated HTML.  Its
value model: a missing property is `undefined` (`Option.none`); numbers
are rationals; `localeCompare` is modelled as code-point comparison and
`Array.prototype.sort` as a stable sort (ES2019).  `Number()` of
array/object values (`ToPrimitive`) is not modelled — no record field the
builder touches holds a container in any dataset or claim. -/

/-- JavaScript truthiness (note: unlike Python, `[]` and `{}` are truthy). -/
def jsTruthyV : JVal → Bool
  | .null => false
  | .bool b => b
  | .int n => decide (n ≠ 0)
  | .float d => decide (d.num ≠ 0)
  | .str s => decide (s ≠ "")
  | .arr _ => true
  | .obj _ => true

/-- `v || dflt` on a possibly-undefined value. -/
def jsOrV (v : Option JVal) (dflt : JVal) : JVal :=
  match v with
  | some x => if jsTruthyV x then x else dflt
  | none => dflt

/-- JS number rendering: integers print without a decimal point. -/
def jsNumToChars (d : Dec) : List Char :=
  if d.exp = 0 then intToChars d.num
  else
    let sign : List Char := if d.num < 0 then ['-'] else []
    let a := d.num.natAbs
    sign ++ natToChars (a / 10 ^ d.exp) ++ '.' :: natCharsPad (a % 10 ^ d.exp) d.exp

/-- JS `String(v)` / `.toString()`.  Array stringification (`[1,2]` →
`"1,2"`) is not modelled; no stringified field holds an array. -/
def jsToStrV : JVal → List Char
  | .null => "null".data
  | .bool true => "true".data
  | .bool false => "false".data
  | .int n => intToChars n
  | .float d => jsNumToChars d
  | .str s => s.data
  | .arr _ => "[array]".data
  | .obj _ => "[object Object]".data

/-- JS `String(v)` where `v` may be `undefined`. -/
def jsToStrOpt : Option JVal → List Char
  | none => "undefined".data
  | some v => jsToStrV v

/-- JS `Number(v)`; `none` denotes NaN. -/
def jsNumberOpt : Option JVal → Option Dec
  | none => none
  | some .null => some (Dec.ofInt 0)
  | some (.bool b) => some (Dec.ofInt (if b then 1 else 0))
  | some (.int n) => some (Dec.ofInt n)
  | some (.float d) => some d
  | some (.str s) => jsNumParse s.data
  | some (.arr _) => none
  | some (.obj _) => none

/-- `buildTraces` row comparator as a `sort`-order test:
`cmp(a,b) <= 0` — numeric on `conc` when both sides parse, otherwise
`localeCompare` of `String(conc||'')`. -/
def concCmpLe (a b : Record) : Bool :=
  match jsNumberOpt (lookupR a "conc"), jsNumberOpt (lookupR b "conc") with
  | some na, some nb => Dec.le na nb
  | _, _ => lexLe (jsToStrV (jsOrV (lookupR a "conc") (.str "")))
                  (jsToStrV (jsOrV (lookupR b "conc") (.str "")))

/-- The per-bucket row ordering of `buildTraces` (`rows.sort(...)`). -/
def sortBucketRows (rows : List Record) : List Record :=
  insertionSortBy concCmpLe rows

/-- A plotted coordinate: `Number(v)` when not NaN, the raw value otherwise. -/
inductive JSPoint where
  | num (d : Dec) : JSPoint
  | raw (v : Option JVal) : JSPoint
deriving DecidableEq

def pointOf (r : Record) (col : String) : JSPoint :=
  match jsNumberOpt (lookupR r col) with
  | some q => .num q
  | none => .raw (lookupR r col)

/-- The grouping key `(r.hw||r.hardware||'unknown').toString().toLowerCase()`. -/
def hwKeyOf (r : Record) : String :=
  String.mk (asciiLowerL (jsToStrV
    (jsOrV (some (jsOrV (lookupR r "hw") (jsOrV (lookupR r "hardware") (.str "unknown"))))
      (.str "unknown"))))

/-- The grouping key `(r.tp===undefined||r.tp==='') ? 'none' : String(r.tp)`. -/
def tpKeyOf (r : Record) : String :=
  match lookupR r "tp" with
  | none => "none"
  | some (.str s) => if s = "" then "none" else s
  | some v => String.mk (jsToStrV v)

/-- Append an element to the bucket of an association list, creating the
bucket at the end on first sight (JS object property insertion order). -/
def pushAssoc (gs : List (String × List β)) (k : String) (r : β) : List (String × List β) :=
  match gs with
  | [] => [(k, [r])]
  | (k2, rs) :: rest =>
    if k2 = k then (k2, rs ++ [r]) :: rest else (k2, rs) :: pushAssoc rest k r

/-- `buildTraces` grouping: hardware, then parallelism. -/
def groupRecords (recs : List Record) : List (String × List (String × List Record)) :=
  recs.foldl
    (fun gs r =>
      match gs.find? (fun kv => kv.1 = hwKeyOf r) with
      | some _ =>
        gs.map fun kv =>
          if kv.1 = hwKeyOf r then (kv.1, pushAssoc kv.2 (tpKeyOf r) r) else kv
      | none => gs ++ [(hwKeyOf r, [(tpKeyOf r, [r])])])
    []

/-- The tp-key comparator of `buildTraces` (`na-nb` when both numeric,
`localeCompare` fallback) as a sort-order test. -/
def tpKeyLe (a b : String) : Bool :=
  match jsNumParse a.data, jsNumParse b.data with
  | some na, some nb => Dec.le na nb
  | _, _ => lexLe a.data b.data

/-- One emitted Plotly trace (the fields the claims are about). -/
structure JSTrace where
  name : String
  xs : List JSPoint
  ys : List JSPoint
deriving DecidableEq

/-- The precision filter of `buildTraces`. -/
def precFilterApply (precFilter : String) (recs : List Record) : List Record :=
  if precFilter ≠ "" && precFilter ≠ "all" then
    recs.filter fun r =>
      asciiLowerL (jsToStrV (jsOrV (lookupR r "precision") (.str ""))) = precFilter.data
  else recs

/-- The tp filter of `buildTraces`. -/
def tpFilterApply (tpFilter : String) (recs : List Record) : List Record :=
  if tpFilter ≠ "" && tpFilter ≠ "all" then
    recs.filter fun r => jsToStrOpt (lookupR r "tp") = tpFilter.data
  else recs

/-- `buildTraces` (embedded JS of `generate_html.py`): filter, group by
(hardware, parallelism), per-bucket sort by concurrency, emit one trace
per non-empty bucket.  Hover text, colors and line mode are
presentation-only and omitted. -/
def buildTraces (records : List Record) (xcol ycol : String)
    (tpFilter precFilter : String) : List JSTrace :=
  if records.isEmpty then []
  else
    let recs := precFilterApply precFilter records
    let recs := tpFilterApply tpFilter recs
    let groups := groupRecords recs
    let hwKeys := insertionSortBy (fun a b => lexLe a.data b.data) (groups.map Prod.fst)
    hwKeys.foldl
      (fun traces hw =>
        match groups.find? (fun kv => kv.1 = hw) with
        | none => traces
        | some (_, tgroups) =>
          let tpKeys := insertionSortBy tpKeyLe (tgroups.map Prod.fst)
          traces ++ tpKeys.foldl
            (fun acc tp =>
              match tgroups.find? (fun kv => kv.1 = tp) with
              | none => acc
              | some (_, rows) =>
                if rows.isEmpty then acc
                else
                  let sorted := sortBucketRows rows
                  acc ++ [{ name := hw ++ (if tp ≠ "none" then " tp=" ++ tp else ""),
                            xs := sorted.map (fun r => pointOf r xcol),
                            ys := sorted.map (fun r => pointOf r ycol) }])
            [])
      []

/-! ### `scripts/compact_schema_all_examples.py` -/

/-- `detect_type`. -/
def detect_type : JVal → String
  | .null => "null"
  | .bool _ => "bool"
  | .int _ => "int"
  | .float _ => "float"
  | .str _ => "string"
  | .arr _ => "array"
  | .obj _ => "object"

/-- A field accumulator entry (`store` values of `add_example`). -/
structure FieldEntry where
  type : String
  examples : List JVal
  numeric_stats : Option (JVal × JVal)
deriving DecidableEq

abbrev Store := List (String × FieldEntry)

def lookupStore : Store → String → Option FieldEntry
  | [], _ => none
  | (k2, e) :: rest, k => if k2 = k then some e else lookupStore rest k

/-- Mutate the first entry with key `k` in place. -/
def updateStore (store : Store) (k : String) (f : FieldEntry → FieldEntry) : Store :=
  match store with
  | [] => []
  | (k2, e) :: rest =>
    if k2 = k then (k2, f e) :: rest else (k2, e) :: updateStore rest k f

/-- The example appended for a value (strings and booleans verbatim; a
list contributes `{"len": n}`, a dict `{"keys": sorted-keys}`).  `none`
for the numeric/null types that record no example. -/
def exampleFor : JVal → Option JVal
  | .str s => some (.str s)
  | .bool b => some (.bool b)
  | .arr xs => some (.obj [("len", .int xs.length)])
  | .obj o => some (.obj [("keys", .arr ((sortStrs (o.map Prod.fst)).map .str))])
  | _ => none

/-- Deduplicated append into `entry["examples"]` (Python `not in` here
coincides with structural equality: the stored examples are strings,
booleans and `{"len"/"keys": _}` dicts, never cross-type-equal numbers). -/
def pushExample (e : FieldEntry) (x : JVal) : FieldEntry :=
  if x ∈ e.examples then e else { e with examples := e.examples ++ [x] }

/-- `val < min` / `val > max` on the numeric values stored in
`numeric_stats` (only ints/floats reach the comparison). -/
def numLt (a b : JVal) : Bool :=
  match numVal a, numVal b with
  | some x, some y => Dec.lt x y
  | _, _ => false

/-- The running `{min, max}` update of `add_example`. -/
def updNumericStats (e : FieldEntry) (v : JVal) : FieldEntry :=
  match v with
  | .int _ | .float _ =>
    match e.numeric_stats with
    | none => { e with numeric_stats := some (v, v) }
    | some (mn, mx) =>
      let mn := if numLt v mn then v else mn
      let mx := if numLt mx v then v else mx
      { e with numeric_stats := some (mn, mx) }
  | _ => e

/-- The per-entry mutation of `add_example`: type promotion to `"mixed"`,
example recording, numeric stats. -/
def addExampleEntry (v : JVal) (e : FieldEntry) : FieldEntry :=
  let e := if e.type ≠ detect_type v && e.type ≠ "mixed" then { e with type := "mixed" } else e
  let e := match exampleFor v with
           | some x => pushExample e x
           | none => e
  updNumericStats e v

/-- `add_example(store, key, val)`. -/
def add_example (store : Store) (k : String) (v : JVal) : Store :=
  let store :=
    if hasKeyS store k then store
    else store ++ [(k, { type := detect_type v, examples := [], numeric_stats := none })]
  updateStore store k (addExampleEntry v)
where
  hasKeyS (s : Store) (key : String) : Bool := s.any (fun kv => kv.1 = key)

/-- `analyze_item`: only mappings contribute. -/
def analyze_item (store : Store) (obj : JVal) : Store :=
  match obj with
  | .obj fields => fields.foldl (fun st kv => add_example st kv.1 kv.2) store
  | _ => store

/-- A serialized schema entry: `examples` present only when non-empty,
`numeric_stats` only when observed. -/
structure SchemaEntry where
  type : String
  examples : Option (List JVal)
  numeric_stats : Option (JVal × JVal)
deriving DecidableEq

abbrev Schema := List (String × SchemaEntry)

/-- `compact_schema_from_items`. -/
def compact_schema_from_items (items : List JVal) : Schema :=
  let store := items.foldl analyze_item []
  store.map fun kv =>
    (kv.1,
     { type := kv.2.type,
       examples := if kv.2.examples.isEmpty then none else some kv.2.examples,
       numeric_stats := kv.2.numeric_stats })

/-- A signature part: `(key, type, bool(numeric_stats), tuple(examples) or None)`. -/
abbrev SigPart := String × String × Bool × Option (List JVal)

abbrev Sig := List SigPart

def lookupSchema : Schema → String → Option SchemaEntry
  | [], _ => none
  | (k2, e) :: rest, k => if k2 = k then some e else lookupSchema rest k

/-- `schema_signature`: sorted field names; numeric min/max values do NOT
enter, only `bool(ns)`. -/
def schema_signature (schema : Schema) : Sig :=
  (sortStrs (schema.map Prod.fst)).map fun k =>
    match lookupSchema schema k with
    | some e => (k, e.type, e.numeric_stats.isSome, e.examples)
    | none => (k, "", false, none)

/-- Hashability of one example element: the `{"len"/"keys": _}` dict
shape signatures (and lists) are unhashable in Python. -/
def exHashable : JVal → Bool
  | .obj _ => false
  | .arr _ => false
  | _ => true

/-- Hashability of the whole signature tuple: `sig in sig_to_id` hashes
every nested element; one dict inside an example tuple raises `TypeError`. -/
def sigHashable (sig : Sig) : Bool :=
  sig.all fun part =>
    match part.2.2.2 with
    | some exs => exs.all exHashable
    | none => true

/-- The pool state of `main`: `schema_pool`, `sig_to_id`, `files_list`
(the serialized `path` field, a filesystem detail, is omitted). -/
structure PoolState where
  pool : List (String × Schema)
  sigToId : List (Sig × String)
  files : List (String × String)
deriving DecidableEq

def initPool : PoolState := { pool := [], sigToId := [], files := [] }

/-- `items = data if isinstance(data, list) else [data]` (`process_file`). -/
def itemsOf (data : JVal) : List JVal :=
  match data with
  | .arr xs => xs
  | _ => [data]

/-- The signature a file's parsed data receives. -/
def sigOf (data : JVal) : Sig :=
  schema_signature (compact_schema_from_items (itemsOf data))

/-- One iteration of the `main` loop on a parsed file: schema, signature,
pool lookup/mint, files append.  When the signature is unhashable the
`sig in sig_to_id` lookup raises `TypeError` before any state is touched;
the per-file handler catches it, so the state is returned unchanged. -/
def processOne (st : PoolState) (fn : String) (data : JVal) : PoolState :=
  let schema := compact_schema_from_items (itemsOf data)
  let sig := schema_signature schema
  if sigHashable sig then
    match st.sigToId.find? (fun kv => kv.1 = sig) with
    | some kv => { st with files := st.files ++ [(fn, kv.2)] }
    | none =>
      let sid := String.mk ('s' :: natToChars (st.pool.length + 1))
      { pool := st.pool ++ [(sid, schema)],
        sigToId := st.sigToId ++ [(sig, sid)],
        files := st.files ++ [(fn, sid)] }
  else st

/-! ### Claim C2: wrapper-key extraction -/

/-- Spec-side restatement of the amended extraction rule, for the
refinement proof of C2: the walk selects the first key of the preference
list that is present WITH a sequence value (not merely present); only
when no key has a sequence value is the mapping itself the sole record. -/
def extractRecordsSpec (j : JVal) : List Record :=
  match j with
  | .null => []
  | .arr xs => dictElems xs
  | .obj o =>
    match (["results", "data", "records", "items", "files"] : List String).find?
        (fun k => match lookupR o k with | some (.arr _) => true | _ => false) with
    | some k =>
      match lookupR o k with
      | some (.arr xs) => dictElems xs
      | _ => [o]
    | none => [o]
  | _ => []

theorem wrapperWalk_eq (o : Record) (ks : List String) :
    normalize_records_from_json.wrapperWalk o ks =
      match ks.find?
          (fun k => match lookupR o k with | some (.arr _) => true | _ => false) with
      | some k =>
        match lookupR o k with
        | some (.arr xs) => dictElems xs
        | _ => [o]
      | none => [o] := by
  induction ks with
  | nil => rfl
  | cons k ks ih =>
    rw [normalize_records_from_json.wrapperWalk, List.find?]
    cases h : lookupR o k with
    | none => simp only [h]; exact ih
    | some v =>
      cases v with
      | arr xs => simp only [h]
      | null => simp only [h]; exact ih
      | bool b => simp only [h]; exact ih
      | int n => simp only [h]; exact ih
      | float q => simp only [h]; exact ih
      | str s => simp only [h]; exact ih
      | obj o2 => simp only [h]; exact ih

/-- C2 (counterexample): on `{"results": 5, "data": [{"x": 1}]}` the code
returns the records under `"data"`, whereas the claim — the first
matching key is `"results"`, and since its value is not a sequence the
mapping itself is the sole record — demands `[the whole mapping]`. -/
theorem c2_counterexample :
    normalize_records_from_json
        (.obj [("results", .int 5), ("data", .arr [.obj [("x", .int 1)]])])
      = [[("x", JVal.int 1)]] ∧
    ([[("x", JVal.int 1)]] : List Record)
      ≠ [[("results", JVal.int 5), ("data", JVal.arr [JVal.obj [("x", JVal.int 1)]])]] := by
  exact ⟨by decide, by decide⟩

/-- C2 (amended): for every mapping-shaped payload the searched key is
the first of (results, data, records, items, files) that is present with
a sequence value; keys present with non-sequence values are skipped, and
only when no key holds a sequence is the mapping itself the sole record.
Sequences keep their mapping-typed elements; null and scalars yield `[]`. -/
theorem c2_amended_first_sequence_key (j : JVal) :
    normalize_records_from_json j = extractRecordsSpec j := by
  cases j with
  | obj o => exact wrapperWalk_eq o _
  | null => rfl
  | bool b => rfl
  | int n => rfl
  | float q => rfl
  | str s => rfl
  | arr xs => rfl

/-! ### Claim C4: idempotence of record coercion -/

/-- C4 (code bug): `coerce_record_types` is not idempotent.  On
`{"tp": "3.7"}` one application stores the float `3.7` (since
`int("3.7")` raises and `float("3.7")` succeeds), but a second
application runs `int(3.7)`, which succeeds by truncation and stores `3`.
Both under Python `==` (`pyEqRec`) and structurally, the twice-normalized
record differs from the once-normalized one, contradicting the spec's
idempotence requirement. -/
theorem c4_idempotence_fails :
    coerce_record_types [("tp", JVal.str "3.7")]
        = [("tp", JVal.float { num := 37, exp := 1 }), ("precision", JVal.str "fp8")] ∧
    coerce_record_types (coerce_record_types [("tp", JVal.str "3.7")])
        = [("tp", JVal.int 3), ("precision", JVal.str "fp8")] ∧
    pyEqRec (coerce_record_types (coerce_record_types [("tp", JVal.str "3.7")]))
        (coerce_record_types [("tp", JVal.str "3.7")]) = false ∧
    coerce_record_types (coerce_record_types [("tp", JVal.str "3.7")])
        ≠ coerce_record_types [("tp", JVal.str "3.7")] := by
  exact ⟨by decide, by decide, by decide, by decide⟩

/-! ### Claim C6: embed-tier boundary -/

/-- C6: the embed tier of a client payload entry is a function of the
record count against `EMBED_RECORDS_LIMIT` alone: records are attached
verbatim exactly when `count <= limit`; a dataset with exactly
`limit` records is eager, and one with `limit + 1` records is deferred
(`records` set to `null`). -/
theorem c6_tier_boundary (filename : String) (key : Option String) (recs : List Record) :
    (buildEntryFromRecs filename key recs).records.isSome
        = decide (recs.length ≤ EMBED_RECORDS_LIMIT) ∧
    (recs.length = EMBED_RECORDS_LIMIT →
      (buildEntryFromRecs filename key recs).records = some recs) ∧
    (recs.length = EMBED_RECORDS_LIMIT + 1 →
      (buildEntryFromRecs filename key recs).records = none) := by
  unfold buildEntryFromRecs
  by_cases h : recs.length ≤ EMBED_RECORDS_LIMIT
  · rw [if_pos h]
    refine ⟨by simp [h], fun _ => rfl, fun h2 => ?_⟩
    rw [h2] at h
    omega
  · rw [if_neg h]
    refine ⟨by simp [h], fun h2 => ?_, fun _ => rfl⟩
    rw [h2] at h
    omega

/-- C6 witness: a 5000-record dataset is eager with all records attached;
a 5001-record dataset is deferred with `records = null`. -/
theorem c6_tier_boundary_witness :
    (buildEntryFromRecs "x.json" none (List.replicate 5000 ([] : Record))).records
        = some (List.replicate 5000 ([] : Record)) ∧
    (buildEntryFromRecs "x.json" none (List.replicate 5001 ([] : Record))).records
        = none := by
  constructor
  · exact (c6_tier_boundary "x.json" none _).2.1 (by rw [List.length_replicate]; rfl)
  · exact (c6_tier_boundary "x.json" none _).2.2 (by rw [List.length_replicate]; rfl)

/-! ### Claim C10: sample on eager entries -/

/-- C10: every eager entry also carries a `sample` field — the first
normalized record when the dataset is non-empty, the empty mapping when
it has no records (`entry["sample"] = recs[0] if recs else {}`). -/
theorem c10_eager_sample (filename : String) (j : JVal)
    (h : (clientRecs filename j).length ≤ EMBED_RECORDS_LIMIT) :
    (build_client_payload_entry filename j).records = some (clientRecs filename j) ∧
    (build_client_payload_entry filename j).sample
        = (clientRecs filename j).headD [] := by
  unfold build_client_payload_entry buildEntryFromRecs
  rw [if_pos h]
  refine ⟨rfl, ?_⟩
  cases clientRecs filename j with
  | nil => rfl
  | cons r rest => rfl

/-- C10 witness: a one-record file yields `sample` equal to its first
normalized record; an empty file yields the empty mapping. -/
theorem c10_eager_sample_witness :
    (build_client_payload_entry "x.json" (.arr [.obj [("a", .int 1)]])).sample
        = (clientRecs "x.json" (.arr [.obj [("a", .int 1)]])).headD [] ∧
    (build_client_payload_entry "empty.json" (.arr [])).sample
        = (clientRecs "empty.json" (.arr [])).headD [] ∧
    (clientRecs "empty.json" (.arr [])).headD [] = ([] : Record) := by
  refine ⟨(c10_eager_sample "x.json" _ (by decide)).2,
          (c10_eager_sample "empty.json" _ (by decide)).2, by decide⟩

/-! ### Claim C5: `mixed` is absorbing -/

/-- The inferred type of field `k` in the accumulator. -/
def typeAt (store : Store) (k : String) : Option String :=
  (lookupStore store k).map FieldEntry.type

theorem lookupStore_updateStore_self (store : Store) (k : String)
    (f : FieldEntry → FieldEntry) :
    lookupStore (updateStore store k f) k = (lookupStore store k).map f := by
  induction store with
  | nil => rfl
  | cons kv rest ih =>
    obtain ⟨k2, e⟩ := kv
    by_cases h : k2 = k
    · simp [updateStore, lookupStore, h]
    · simp [updateStore, lookupStore, h, ih]

theorem lookupStore_updateStore_ne (store : Store) (k k2 : String)
    (f : FieldEntry → FieldEntry) (h : k2 ≠ k) :
    lookupStore (updateStore store k2 f) k = lookupStore store k := by
  induction store with
  | nil => rfl
  | cons kv rest ih =>
    obtain ⟨k3, e⟩ := kv
    by_cases h3 : k3 = k2
    · subst h3
      simp [updateStore, lookupStore, h]
    · simp only [updateStore, if_neg h3, lookupStore]
      by_cases h4 : k3 = k
      · simp [h4]
      · simp [h4, ih]

theorem lookupStore_append_some (store : Store) (l : Store) (k : String)
    (e : FieldEntry) (h : lookupStore store k = some e) :
    lookupStore (store ++ l) k = some e := by
  induction store with
  | nil => simp [lookupStore] at h
  | cons kv rest ih =>
    obtain ⟨k2, e2⟩ := kv
    by_cases h2 : k2 = k
    · simp_all [lookupStore]
    · simp only [lookupStore, if_neg h2] at h
      simpa [lookupStore, h2] using ih h

theorem pushExample_type (e : FieldEntry) (x : JVal) :
    (pushExample e x).type = e.type := by
  unfold pushExample
  split <;> rfl

theorem updNumericStats_type (e : FieldEntry) (v : JVal) :
    (updNumericStats e v).type = e.type := by
  unfold updNumericStats
  cases v <;> simp <;> split <;> rfl

theorem addExampleEntry_mixed (e : FieldEntry) (v : JVal) (h : e.type = "mixed") :
    (addExampleEntry v e).type = "mixed" := by
  unfold addExampleEntry
  rw [h]
  rw [if_neg (by simp)]
  cases hx : exampleFor v with
  | none =>
    dsimp only
    rw [updNumericStats_type]
    exact h
  | some x =>
    dsimp only
    rw [updNumericStats_type, pushExample_type]
    exact h

theorem add_example_typeAt_mixed (store : Store) (k k2 : String) (v : JVal)
    (h : typeAt store k = some "mixed") :
    typeAt (add_example store k2 v) k = some "mixed" := by
  obtain ⟨e, he, het⟩ : ∃ e, lookupStore store k = some e ∧ e.type = "mixed" := by
    unfold typeAt at h
    cases hl : lookupStore store k with
    | none => rw [hl] at h; simp at h
    | some e => rw [hl] at h; simp at h; exact ⟨e, rfl, h⟩
  unfold add_example
  have hstep : ∀ st2 : Store, lookupStore st2 k = some e →
      typeAt (updateStore st2 k2 (addExampleEntry v)) k = some "mixed" := by
    intro st2 h2
    by_cases hk : k2 = k
    · subst hk
      unfold typeAt
      rw [lookupStore_updateStore_self, h2]
      simp [addExampleEntry_mixed e v het]
    · unfold typeAt
      rw [lookupStore_updateStore_ne _ _ _ _ hk, h2]
      simp [het]
  split
  · exact hstep store he
  · exact hstep _ (lookupStore_append_some store _ k e he)

theorem analyze_item_typeAt_mixed (store : Store) (k : String) (obj : JVal)
    (h : typeAt store k = some "mixed") :
    typeAt (analyze_item store obj) k = some "mixed" := by
  cases obj with
  | obj fields =>
    unfold analyze_item
    induction fields generalizing store with
    | nil => exact h
    | cons kv rest ih => exact ih _ (add_example_typeAt_mixed store k kv.1 kv.2 h)
  | null => exact h
  | bool b => exact h
  | int n => exact h
  | float q => exact h
  | str s => exact h
  | arr xs => exact h

/-- C5: once a field's accumulated descriptor type is `"mixed"`, feeding
any further records (`analyze_item` over any item list, hence any
sequence of `add_example` calls) leaves it `"mixed"`: the transition is
one-directional. -/
theorem c5_mixed_monotone (store : Store) (k : String) (items : List JVal)
    (h : typeAt store k = some "mixed") :
    typeAt (items.foldl analyze_item store) k = some "mixed" := by
  induction items generalizing store with
  | nil => exact h
  | cons it rest ih =>
    exact ih _ (analyze_item_typeAt_mixed store k it h)

/-- C5 witness: a field already `"mixed"` stays `"mixed"` after two more
records with concrete string and int values for it. -/
theorem c5_mixed_monotone_witness :
    typeAt
      ([.obj [("a", .str "s")], .obj [("a", .int 7)]].foldl analyze_item
        [("a", { type := "mixed", examples := [], numeric_stats := none })])
      "a" = some "mixed" := by
  exact c5_mixed_monotone
    [("a", { type := "mixed", examples := [], numeric_stats := none })] "a"
    [.obj [("a", .str "s")], .obj [("a", .int 7)]] (by decide)

/-! ### Claim C7: the signature is range-insensitive -/

/-- Field-wise sameness of two schemas up to the stored numeric min/max
values: same name, type, example list, and `numeric_stats` presence. -/
def sameShape (a b : String × SchemaEntry) : Prop :=
  a.1 = b.1 ∧ a.2.type = b.2.type ∧ a.2.examples = b.2.examples ∧
    a.2.numeric_stats.isSome = b.2.numeric_stats.isSome

theorem keys_eq_of_sameShape (s1 s2 : Schema) (h : List.Forall₂ sameShape s1 s2) :
    s1.map Prod.fst = s2.map Prod.fst := by
  induction h with
  | nil => rfl
  | cons hr _ ih => simp only [List.map_cons, hr.1, ih]

theorem lookupSchema_sameShape (s1 s2 : Schema) (h : List.Forall₂ sameShape s1 s2)
    (k : String) :
    (lookupSchema s1 k = none ∧ lookupSchema s2 k = none) ∨
    (∃ e1 e2, lookupSchema s1 k = some e1 ∧ lookupSchema s2 k = some e2 ∧
      e1.type = e2.type ∧ e1.examples = e2.examples ∧
      e1.numeric_stats.isSome = e2.numeric_stats.isSome) := by
  induction h with
  | nil => exact Or.inl ⟨rfl, rfl⟩
  | @cons a b l1 l2 hr _ ih =>
    obtain ⟨ka, ea⟩ := a
    obtain ⟨kb, eb⟩ := b
    obtain ⟨hk, ht, hex, hns⟩ := hr
    dsimp only at hk ht hex hns
    subst hk
    by_cases hka : ka = k
    · exact Or.inr ⟨ea, eb, by simp [lookupSchema, hka], by simp [lookupSchema, hka],
        ht, hex, hns⟩
    · simpa [lookupSchema, hka] using ih

/-- C7: two schemas identical in field names, per-field types, example
lists and `numeric_stats` presence, but arbitrary in the stored numeric
min/max values, have the same `schema_signature` — only `bool(ns)`
enters the signature, never the ranges. -/
theorem c7_signature_ignores_numeric_ranges (s1 s2 : Schema)
    (h : List.Forall₂ sameShape s1 s2) :
    schema_signature s1 = schema_signature s2 := by
  unfold schema_signature
  rw [keys_eq_of_sameShape s1 s2 h]
  have hfun : ∀ k : String,
      (match lookupSchema s1 k with
       | some e => (k, e.type, e.numeric_stats.isSome, e.examples)
       | none => (k, "", false, none) : SigPart)
      = (match lookupSchema s2 k with
         | some e => (k, e.type, e.numeric_stats.isSome, e.examples)
         | none => (k, "", false, none)) := by
    intro k
    rcases lookupSchema_sameShape s1 s2 h k with ⟨h1, h2⟩ | ⟨e1, e2, h1, h2, ht, hex, hns⟩
    · rw [h1, h2]
    · rw [h1, h2]
      dsimp only
      rw [ht, hex, hns]
  exact List.map_congr_left fun k _ => hfun k

/-- C7 witness: the same one-field int schema with ranges `[0, 5]` and
`[100, 200]` — signatures coincide. -/
theorem c7_signature_witness :
    schema_signature
        [("a", { type := "int", examples := none,
                 numeric_stats := some (.int 0, .int 5) })]
      = schema_signature
        [("a", { type := "int", examples := none,
                 numeric_stats := some (.int 100, .int 200) })] :=
  c7_signature_ignores_numeric_ranges _ _
    (List.Forall₂.cons ⟨rfl, rfl, rfl, rfl⟩ List.Forall₂.nil)

/-! ### Claim C1: pool identity and example sets -/

/-- C1 (counterexample): datasets `[{"a":1,"b":"x"}]` and
`[{"a":2,"b":"y"}]` have the same field names, types and
`numeric_stats` presence but different observed strings for `b`; the
claim says both get the same `schema_id`, yet the pool assigns `s1` and
`s2` because the example tuples enter the signature.  (The added-field
dataset does get a further distinct id, `s3`.) -/
theorem c1_counterexample :
    (processOne (processOne (processOne initPool "a.json"
        (.arr [.obj [("a", .int 1), ("b", .str "x")]]))
        "b.json" (.arr [.obj [("a", .int 2), ("b", .str "y")]]))
        "c.json" (.arr [.obj [("a", .int 1), ("b", .str "x"), ("c", .bool true)]])).files
      = [("a.json", "s1"), ("b.json", "s2"), ("c.json", "s3")] ∧
    ("s1" : String) ≠ "s2" := by
  exact ⟨by decide, by decide⟩

theorem processOne_initPool (fn : String) (d : JVal)
    (h : sigHashable (sigOf d) = true) :
    processOne initPool fn d
      = { pool := [("s1", compact_schema_from_items (itemsOf d))],
          sigToId := [(sigOf d, "s1")], files := [(fn, "s1")] } := by
  have h2 : sigHashable (schema_signature (compact_schema_from_items (itemsOf d)))
      = true := h
  have hs1 : String.mk ('s' :: natToChars (0 + 1)) = "s1" := by decide
  unfold processOne
  dsimp only [initPool]
  rw [h2]
  simp only [if_true, List.find?, List.length_nil, List.nil_append]
  rw [hs1]
  rfl

/-- C1 (amended): from the empty pool, the ids of the first two processed
files are decided exactly by signature equality — a signature includes
field names, types, `numeric_stats` presence AND the example tuples, so
two datasets get the same `schema_id` if and only if all of those match;
equal signatures share `s1`, distinct signatures mint the distinct `s2`. -/
theorem c1_amended_signature_decides_id (fnA fnB : String) (dA dB : JVal)
    (hA : sigHashable (sigOf dA) = true) (hB : sigHashable (sigOf dB) = true) :
    (sigOf dA = sigOf dB →
      (processOne (processOne initPool fnA dA) fnB dB).files
        = [(fnA, "s1"), (fnB, "s1")]) ∧
    (sigOf dA ≠ sigOf dB →
      (processOne (processOne initPool fnA dA) fnB dB).files
        = [(fnA, "s1"), (fnB, "s2")]) ∧
    ("s1" : String) ≠ "s2" := by
  rw [processOne_initPool fnA dA hA]
  have hB2 : sigHashable (schema_signature (compact_schema_from_items (itemsOf dB)))
      = true := hB
  have hs2 : String.mk ('s' :: natToChars (1 + 1)) = "s2" := by decide
  refine ⟨fun heq => ?_, fun hne => ?_, by decide⟩
  · unfold processOne
    dsimp only
    rw [hB2]
    simp only [if_true, List.find?]
    have heq2 : sigOf dA = schema_signature (compact_schema_from_items (itemsOf dB)) :=
      heq
    have hd : decide (sigOf dA
        = schema_signature (compact_schema_from_items (itemsOf dB))) = true := by
      simp [heq2]
    rw [hd]
    rfl
  · unfold processOne
    dsimp only
    rw [hB2]
    simp only [if_true, List.find?]
    have hne2 : ¬(sigOf dA = schema_signature (compact_schema_from_items (itemsOf dB))) :=
      hne
    have hd : decide (sigOf dA
        = schema_signature (compact_schema_from_items (itemsOf dB))) = false := by
      simp [hne2]
    rw [hd]
    simp only [List.find?, List.length_cons, List.length_nil]
    rw [hs2]
    rfl

/-- C1 witness: datasets `[{"a":1,"b":"x"}]` and `[{"a":50,"b":"x"}]`
(same shape, same example set, different numeric range) share `s1`;
`[{"a":1,"b":"x","c":true}]` (an added field) gets the distinct `s2`. -/
theorem c1_amended_witness :
    (processOne (processOne initPool "a.json"
        (.arr [.obj [("a", .int 1), ("b", .str "x")]]))
        "b.json" (.arr [.obj [("a", .int 50), ("b", .str "x")]])).files
      = [("a.json", "s1"), ("b.json", "s1")] ∧
    (processOne (processOne initPool "a.json"
        (.arr [.obj [("a", .int 1), ("b", .str "x")]]))
        "c.json" (.arr [.obj [("a", .int 1), ("b", .str "x"), ("c", .bool true)]])).files
      = [("a.json", "s1"), ("c.json", "s2")] := by
  constructor
  · exact (c1_amended_signature_decides_id "a.json" "b.json" _ _
      (by decide) (by decide)).1 (by decide)
  · exact (c1_amended_signature_decides_id "a.json" "c.json" _ _
      (by decide) (by decide)).2.1 (by decide)

/-! ### Claim C9: container-valued fields poison the signature -/

def isContainer : JVal → Bool
  | .arr _ => true
  | .obj _ => true
  | _ => false

/-- Membership of an example value in the accumulator entry of field `k`. -/
def memEx (store : Store) (k : String) (x : JVal) : Prop :=
  ∃ e, lookupStore store k = some e ∧ x ∈ e.examples

theorem exampleFor_container (v : JVal) (hv : isContainer v = true) :
    ∃ o, exampleFor v = some (.obj o) := by
  cases v with
  | arr xs => exact ⟨_, rfl⟩
  | obj o => exact ⟨_, rfl⟩
  | null => simp [isContainer] at hv
  | bool b => simp [isContainer] at hv
  | int n => simp [isContainer] at hv
  | float q => simp [isContainer] at hv
  | str s => simp [isContainer] at hv

theorem pushExample_mem_self (e : FieldEntry) (x : JVal) :
    x ∈ (pushExample e x).examples := by
  unfold pushExample
  by_cases h : x ∈ e.examples
  · rw [if_pos h]; exact h
  · rw [if_neg h]; simp

theorem pushExample_mem_mono (e : FieldEntry) (x y : JVal) (h : y ∈ e.examples) :
    y ∈ (pushExample e x).examples := by
  unfold pushExample
  split
  · exact h
  · simp [h]

theorem updNumericStats_examples (e : FieldEntry) (v : JVal) :
    (updNumericStats e v).examples = e.examples := by
  unfold updNumericStats
  cases v <;> simp <;> split <;> rfl

theorem typeMark_examples (e : FieldEntry) (v : JVal) :
    (if e.type ≠ detect_type v && e.type ≠ "mixed" then { e with type := "mixed" }
     else e).examples = e.examples := by
  split <;> rfl

theorem addExampleEntry_mem_self (e : FieldEntry) (v : JVal) (x : JVal)
    (hx : exampleFor v = some x) :
    x ∈ (addExampleEntry v e).examples := by
  unfold addExampleEntry
  rw [hx]
  dsimp only
  rw [updNumericStats_examples]
  exact pushExample_mem_self _ x

theorem addExampleEntry_mem_mono (e : FieldEntry) (v : JVal) (y : JVal)
    (h : y ∈ e.examples) :
    y ∈ (addExampleEntry v e).examples := by
  unfold addExampleEntry
  cases hx : exampleFor v with
  | none =>
    dsimp only
    rw [updNumericStats_examples, typeMark_examples]
    exact h
  | some x =>
    dsimp only
    rw [updNumericStats_examples]
    apply pushExample_mem_mono
    rw [typeMark_examples]
    exact h

theorem hasKeyS_false_lookup (store : Store) (k : String)
    (h : add_example.hasKeyS store k = false) : lookupStore store k = none := by
  induction store with
  | nil => rfl
  | cons kv rest ih =>
    simp only [add_example.hasKeyS, List.any_cons, Bool.or_eq_false_iff,
      decide_eq_false_iff_not] at h
    simp only [lookupStore]
    obtain ⟨k2, e⟩ := kv
    rw [if_neg h.1]
    exact ih (by simpa [add_example.hasKeyS] using h.2)

theorem lookupStore_append_none (store l : Store) (k : String)
    (h : lookupStore store k = none) :
    lookupStore (store ++ l) k = lookupStore l k := by
  induction store with
  | nil => rfl
  | cons kv rest ih =>
    obtain ⟨k2, e⟩ := kv
    by_cases h2 : k2 = k
    · simp [lookupStore, h2] at h
    · simp only [lookupStore, if_neg h2] at h
      simpa [lookupStore, h2] using ih h

theorem add_example_memEx_self (store : Store) (k : String) (v x : JVal)
    (hx : exampleFor v = some x) :
    memEx (add_example store k v) k x := by
  unfold add_example
  cases hk : add_example.hasKeyS store k with
  | true =>
    rw [if_pos rfl]
    have : ∃ e, lookupStore store k = some e := by
      induction store with
      | nil => simp [add_example.hasKeyS] at hk
      | cons kv rest ih =>
        obtain ⟨k2, e⟩ := kv
        by_cases h2 : k2 = k
        · exact ⟨e, by simp [lookupStore, h2]⟩
        · simp only [add_example.hasKeyS, List.any_cons, Bool.or_eq_true,
            decide_eq_true_eq] at hk
          rcases hk with hk | hk
          · exact absurd hk h2
          · obtain ⟨e2, he2⟩ := ih (by simpa [add_example.hasKeyS] using hk)
            exact ⟨e2, by simpa [lookupStore, h2] using he2⟩
    obtain ⟨e, he⟩ := this
    refine ⟨addExampleEntry v e, ?_, addExampleEntry_mem_self e v x hx⟩
    rw [lookupStore_updateStore_self, he]
    rfl
  | false =>
    rw [if_neg (by simp)]
    have hnone := hasKeyS_false_lookup store k hk
    have happ : lookupStore
        (store ++ [(k, { type := detect_type v, examples := [], numeric_stats := none })]) k
        = some { type := detect_type v, examples := [], numeric_stats := none } := by
      rw [lookupStore_append_none _ _ _ hnone]
      simp [lookupStore]
    refine ⟨addExampleEntry v { type := detect_type v, examples := [], numeric_stats := none },
      ?_, addExampleEntry_mem_self _ v x hx⟩
    rw [lookupStore_updateStore_self, happ]
    rfl

theorem add_example_memEx_mono (store : Store) (k k2 : String) (v x : JVal)
    (h : memEx store k x) :
    memEx (add_example store k2 v) k x := by
  obtain ⟨e, he, hx⟩ := h
  unfold add_example
  have hstep : ∀ st2 : Store, lookupStore st2 k = some e →
      memEx (updateStore st2 k2 (addExampleEntry v)) k x := by
    intro st2 h2
    by_cases hk : k2 = k
    · subst hk
      refine ⟨addExampleEntry v e, ?_, addExampleEntry_mem_mono e v x hx⟩
      rw [lookupStore_updateStore_self, h2]
      rfl
    · refine ⟨e, ?_, hx⟩
      rw [lookupStore_updateStore_ne _ _ _ _ hk]
      exact h2
  split
  · exact hstep store he
  · exact hstep _ (lookupStore_append_some store _ k e he)

theorem fields_fold_memEx_mono (fields : List (String × JVal)) (store : Store)
    (k : String) (x : JVal) (h : memEx store k x) :
    memEx (fields.foldl (fun st kv => add_example st kv.1 kv.2) store) k x := by
  induction fields generalizing store with
  | nil => exact h
  | cons kv rest ih => exact ih _ (add_example_memEx_mono store k kv.1 kv.2 x h)

theorem fields_fold_memEx_self (fields : List (String × JVal)) (store : Store)
    (k : String) (v x : JVal) (hkv : (k, v) ∈ fields) (hx : exampleFor v = some x) :
    memEx (fields.foldl (fun st kv => add_example st kv.1 kv.2) store) k x := by
  induction fields generalizing store with
  | nil => simp at hkv
  | cons kv rest ih =>
    rcases List.mem_cons.mp hkv with hkv | hkv
    · subst hkv
      exact fields_fold_memEx_mono rest _ k x (add_example_memEx_self store k v x hx)
    · exact ih _ hkv

theorem analyze_item_memEx_mono (store : Store) (k : String) (x : JVal) (it : JVal)
    (h : memEx store k x) :
    memEx (analyze_item store it) k x := by
  cases it with
  | obj fields => exact fields_fold_memEx_mono fields store k x h
  | null => exact h
  | bool b => exact h
  | int n => exact h
  | float q => exact h
  | str s => exact h
  | arr xs => exact h

theorem items_fold_memEx_mono (items : List JVal) (store : Store)
    (k : String) (x : JVal) (h : memEx store k x) :
    memEx (items.foldl analyze_item store) k x := by
  induction items generalizing store with
  | nil => exact h
  | cons it rest ih => exact ih _ (analyze_item_memEx_mono store k x it h)

theorem items_fold_memEx (items : List JVal) (store : Store) (rec : Record)
    (k : String) (v x : JVal) (hrec : JVal.obj rec ∈ items) (hkv : (k, v) ∈ rec)
    (hx : exampleFor v = some x) :
    memEx (items.foldl analyze_item store) k x := by
  induction items generalizing store with
  | nil => simp at hrec
  | cons it rest ih =>
    rcases List.mem_cons.mp hrec with hit | hit
    · subst hit
      exact items_fold_memEx_mono rest _ k x
        (fields_fold_memEx_self rec store k v x hkv hx)
    · exact ih _ hit

theorem lookupSchema_compact (store : Store) (k : String) :
    lookupSchema
      (store.map fun kv =>
        ((kv.1,
          { type := kv.2.type,
            examples := if kv.2.examples.isEmpty then none else some kv.2.examples,
            numeric_stats := kv.2.numeric_stats }) : String × SchemaEntry)) k
      = (lookupStore store k).map fun e =>
          ({ type := e.type,
             examples := if e.examples.isEmpty then none else some e.examples,
             numeric_stats := e.numeric_stats } : SchemaEntry) := by
  induction store with
  | nil => rfl
  | cons kv rest ih =>
    obtain ⟨k2, e⟩ := kv
    by_cases h : k2 = k
    · simp [lookupSchema, lookupStore, h]
    · simpa [lookupSchema, lookupStore, h] using ih

theorem lookupSchema_some_mem_keys (schema : Schema) (k : String) (e : SchemaEntry)
    (h : lookupSchema schema k = some e) : k ∈ schema.map Prod.fst := by
  induction schema with
  | nil => simp [lookupSchema] at h
  | cons kv rest ih =>
    obtain ⟨k2, e2⟩ := kv
    by_cases h2 : k2 = k
    · simp [h2]
    · simp only [lookupSchema, if_neg h2] at h
      simp [ih h]

theorem mem_insertSorted (le : α → α → Bool) (x a : α) (l : List α) :
    a ∈ insertSorted le x l ↔ a = x ∨ a ∈ l := by
  induction l with
  | nil => simp [insertSorted]
  | cons y ys ih =>
    unfold insertSorted
    split
    · simp
    · rw [List.mem_cons, ih]
      constructor
      · rintro (h | h | h) <;> simp [h]
      · rintro (h | h)
        · simp [h]
        · rcases List.mem_cons.mp h with h | h <;> simp [h]

theorem mem_insertionSortBy (le : α → α → Bool) (a : α) (l : List α) :
    a ∈ insertionSortBy le l ↔ a ∈ l := by
  induction l with
  | nil => simp [insertionSortBy]
  | cons x xs ih =>
    unfold insertionSortBy at ih ⊢
    rw [List.foldr_cons, mem_insertSorted, ih, List.mem_cons]

theorem sigHashable_false_of_mem (schema : Schema) (k : String) (e : SchemaEntry)
    (exs : List JVal) (x : JVal)
    (hl : lookupSchema schema k = some e) (hex : e.examples = some exs)
    (hx : x ∈ exs) (hxh : exHashable x = false) :
    sigHashable (schema_signature schema) = false := by
  have hkmem : k ∈ sortStrs (schema.map Prod.fst) :=
    (mem_insertionSortBy strLe k _).mpr (lookupSchema_some_mem_keys schema k e hl)
  have hpart : ((k, e.type, e.numeric_stats.isSome, e.examples) : SigPart)
      ∈ schema_signature schema := by
    unfold schema_signature
    refine List.mem_map.mpr ⟨k, hkmem, ?_⟩
    rw [hl]
  cases hs : sigHashable (schema_signature schema) with
  | false => rfl
  | true =>
    exfalso
    have hall := List.all_eq_true.mp hs _ hpart
    rw [hex] at hall
    dsimp only at hall
    have := List.all_eq_true.mp hall x hx
    rw [hxh] at this
    exact Bool.false_ne_true this

/-- C9: a dataset in which some record holds an array- or object-typed
field value acquires a `{"len"/"keys": _}` dict in that field's example
list; the signature tuple then contains an unhashable element, the
`sig in sig_to_id` lookup raises `TypeError`, the per-file handler
swallows it, and the file changes nothing: no `schema_id`, no pool entry,
no files entry. -/
theorem c9_unhashable_schema_skipped (st : PoolState) (fn : String) (data : JVal)
    (rec : Record) (k : String) (v : JVal)
    (hrec : JVal.obj rec ∈ itemsOf data) (hkv : (k, v) ∈ rec)
    (hv : isContainer v = true) :
    sigHashable (sigOf data) = false ∧ processOne st fn data = st := by
  obtain ⟨o, ho⟩ := exampleFor_container v hv
  obtain ⟨e, he, hx⟩ :=
    items_fold_memEx (itemsOf data) [] rec k v (.obj o) hrec hkv ho
  have hfalse : sigHashable (sigOf data) = false := by
    unfold sigOf compact_schema_from_items
    dsimp only
    refine sigHashable_false_of_mem _ k
      { type := e.type,
        examples := if e.examples.isEmpty then none else some e.examples,
        numeric_stats := e.numeric_stats } e.examples (.obj o) ?_ ?_ hx rfl
    · rw [lookupSchema_compact, he]
      rfl
    · have hne : e.examples.isEmpty = false := by
        cases hexs : e.examples with
        | nil => rw [hexs] at hx; simp at hx
        | cons y ys => rfl
      simp [hne]
  refine ⟨hfalse, ?_⟩
  have hf2 : sigHashable (schema_signature (compact_schema_from_items (itemsOf data)))
      = false := hfalse
  unfold processOne
  dsimp only
  rw [hf2]
  rfl

/-- C9 witness: the file `[{"a": []}]` leaves the empty pool untouched:
its signature is unhashable and it receives no schema id. -/
theorem c9_unhashable_witness :
    sigHashable (sigOf (.arr [.obj [("a", .arr [])]])) = false ∧
    processOne initPool "f.json" (.arr [.obj [("a", .arr [])]]) = initPool :=
  c9_unhashable_schema_skipped initPool "f.json" (.arr [.obj [("a", .arr [])]])
    [("a", .arr [])] "a" (.arr []) (by decide) (by decide) (by decide)

/-! ### Claim C3: bucket sorting never discards records -/

theorem perm_insertSorted (le : α → α → Bool) (x : α) (l : List α) :
    (insertSorted le x l).Perm (x :: l) := by
  induction l with
  | nil => exact List.Perm.refl _
  | cons y ys ih =>
    unfold insertSorted
    split
    · exact List.Perm.refl _
    · exact (ih.cons y).trans (List.Perm.swap x y ys)

theorem perm_insertionSortBy (le : α → α → Bool) (l : List α) :
    (insertionSortBy le l).Perm l := by
  induction l with
  | nil => exact List.Perm.refl _
  | cons x xs ih =>
    unfold insertionSortBy at ih ⊢
    rw [List.foldr_cons]
    exact (perm_insertSorted le x _).trans (ih.cons x)

/-- C3 (counterexample): two records in the same (hardware, parallelism)
bucket, one of them without a `conc` field; the emitted trace holds BOTH
points — nothing is discarded — while the claim says the record missing
the sort field is dropped from the bucket (which would leave one point). -/
theorem c3_counterexample :
    (buildTraces
        [[("hw", .str "h100"), ("conc", .int 10), ("y", .int 5)],
         [("hw", .str "h100"), ("y", .int 7)]]
        "y" "y" "all" "").map (fun t => (t.name, t.xs.length))
      = [("h100", 2)] ∧
    (([[("hw", JVal.str "h100"), ("conc", JVal.int 10), ("y", JVal.int 5)],
       [("hw", JVal.str "h100"), ("y", JVal.int 7)]] : List Record).filter
        (fun r => hasKeyR r "conc")).length = 1 := by
  exact ⟨by decide, by decide⟩

/-- C3 (amended): within each bucket no record is discarded — the sorted
rows are a permutation of the bucket and the emitted point list has the
bucket's full length; the comparator orders numerically when both sides'
`conc` parses as a number (`Number()` not NaN) and otherwise falls back
to a lexical comparison of `String(conc||'')` — records missing `conc`
participate in that fallback instead of being dropped. -/
theorem c3_amended_no_discard (rows : List Record) (xcol : String) (a b : Record)
    (na nb : Dec) :
    (sortBucketRows rows).Perm rows ∧
    ((sortBucketRows rows).map (fun r => pointOf r xcol)).length = rows.length ∧
    (jsNumberOpt (lookupR a "conc") = some na →
      jsNumberOpt (lookupR b "conc") = some nb →
      concCmpLe a b = Dec.le na nb) ∧
    (jsNumberOpt (lookupR a "conc") = none ∨ jsNumberOpt (lookupR b "conc") = none →
      concCmpLe a b = lexLe (jsToStrV (jsOrV (lookupR a "conc") (.str "")))
                           (jsToStrV (jsOrV (lookupR b "conc") (.str "")))) := by
  refine ⟨perm_insertionSortBy concCmpLe rows, ?_, ?_, ?_⟩
  · rw [List.length_map]
    exact (perm_insertionSortBy concCmpLe rows).length_eq
  · intro ha hb
    unfold concCmpLe
    rw [ha, hb]
  · intro h
    unfold concCmpLe
    rcases h with h | h
    · rw [h]
    · rw [h]
      cases jsNumberOpt (lookupR a "conc") <;> rfl

/-- C3 witness: the permutation and length facts on a concrete
two-record bucket, the numeric comparator on two concrete `conc`-carrying
records, and the lexical fallback against a record without `conc`. -/
theorem c3_amended_witness :
    (sortBucketRows
        [[("hw", .str "h100"), ("conc", .int 10), ("y", .int 5)],
         [("hw", .str "h100"), ("y", .int 7)]]).Perm
      [[("hw", .str "h100"), ("conc", .int 10), ("y", .int 5)],
       [("hw", .str "h100"), ("y", .int 7)]] ∧
    concCmpLe [("conc", .int 10)] [("conc", .int 20)]
      = Dec.le (Dec.ofInt 10) (Dec.ofInt 20) ∧
    concCmpLe [("conc", .int 10)] [("y", .int 7)]
      = lexLe (jsToStrV (jsOrV (lookupR [("conc", .int 10)] "conc") (.str "")))
              (jsToStrV (jsOrV (lookupR [("y", .int 7)] "conc") (.str ""))) := by
  refine ⟨(c3_amended_no_discard _ "y" [] [] (Dec.ofInt 0) (Dec.ofInt 0)).1,
    (c3_amended_no_discard [] "y" [("conc", .int 10)] [("conc", .int 20)]
      (Dec.ofInt 10) (Dec.ofInt 20)).2.2.1 (by decide) (by decide),
    (c3_amended_no_discard [] "y" [("conc", .int 10)] [("y", .int 7)]
      (Dec.ofInt 0) (Dec.ofInt 0)).2.2.2 (Or.inr (by decide))⟩

/-! ### Claim C8: the no-rule fallback of canonicalization -/

/-- No ASCII uppercase letter occurs in the string. -/
def noUpper (cs : List Char) : Prop := ∀ c ∈ cs, ¬('A' ≤ c ∧ c ≤ 'Z')

theorem toNat_ofNat_valid (n : Nat) (h : n.isValidChar) :
    (Char.ofNat n).toNat = n := by
  rw [Char.ofNat, dif_pos h]
  rfl

theorem toLower_not_upper (c : Char) :
    ¬('A' ≤ Char.toLower c ∧ Char.toLower c ≤ 'Z') := by
  rw [Char.toLower]
  split
  case isTrue h =>
    intro hc
    have h3 : (c.toNat + 32).isValidChar := by
      left
      have : c.toNat ≤ 90 := h.2
      omega
    have h4 : (Char.ofNat (c.toNat + 32)).toNat = c.toNat + 32 := toNat_ofNat_valid _ h3
    have h5 : (Char.ofNat (c.toNat + 32)).toNat ≤ 90 := hc.2
    have h6 : 65 ≤ c.toNat := h.1
    omega
  case isFalse h =>
    intro hc
    exact h ⟨hc.1, hc.2⟩

theorem noUpper_asciiLowerL (cs : List Char) : noUpper (asciiLowerL cs) := by
  intro c hc
  obtain ⟨c0, _, hc0⟩ := List.mem_map.mp hc
  rw [← hc0]
  exact toLower_not_upper c0

/-- Transfer of `noUpper` along a subset-or-dash map of characters. -/
theorem noUpper_of_subset (l1 l2 : List Char)
    (h : ∀ c ∈ l2, c ∈ l1 ∨ c = '-') (h1 : noUpper l1) : noUpper l2 := by
  intro c hc
  rcases h c hc with hm | hm
  · exact h1 c hm
  · rw [hm]
    decide

theorem mntModelsDrop_subset (cs r : List Char) (h : mntModelsDrop cs = some r) :
    ∀ c ∈ r, c ∈ cs := by
  induction cs with
  | nil => simp [mntModelsDrop] at h
  | cons c0 rest ih =>
    unfold mntModelsDrop at h
    split at h
    · intro c hc
      obtain rfl : (c0 :: rest).drop 8 = r := by
        simpa using h
      exact List.mem_of_mem_drop hc
    · split at h
      · exact absurd h (by simp)
      · intro c hc
        exact List.mem_cons_of_mem c0 (ih h c hc)

theorem stripVendor_subset (cs : List Char) : ∀ c ∈ stripVendor cs, c ∈ cs := by
  unfold stripVendor
  split
  · intro c hc
    exact List.mem_of_mem_drop hc
  · split
    · split
      case isTrue.h_1 r heq =>
        intro c hc
        exact List.mem_of_mem_drop (mntModelsDrop_subset _ r heq c hc)
      case isTrue.h_2 => exact fun c hc => hc
    · exact fun c hc => hc

theorem stripSufTags_subset (cs : List Char) : ∀ c ∈ stripSufTags cs, c ∈ cs := by
  unfold stripSufTags
  split
  · intro c hc
    exact List.mem_of_mem_take hc
  · exact fun c hc => hc

theorem sepToDash_or (c : Char) : sepToDash c = c ∨ sepToDash c = '-' := by
  unfold sepToDash
  split
  · exact Or.inr rfl
  · exact Or.inl rfl

theorem collapseRuns_subset (p : Char → Bool) (rep : Char) (cs : List Char) (b : Bool) :
    ∀ c ∈ collapseRuns p rep cs b, c ∈ cs ∨ c = rep := by
  induction cs generalizing b with
  | nil => simp [collapseRuns]
  | cons c0 rest ih =>
    unfold collapseRuns
    split
    · split
      · intro c hc
        rcases ih true c hc with hm | hm
        · exact Or.inl (List.mem_cons_of_mem c0 hm)
        · exact Or.inr hm
      · intro c hc
        rcases List.mem_cons.mp hc with hm | hm
        · exact Or.inr hm
        · rcases ih true c hm with hm2 | hm2
          · exact Or.inl (List.mem_cons_of_mem c0 hm2)
          · exact Or.inr hm2
    · intro c hc
      rcases List.mem_cons.mp hc with hm | hm
      · exact Or.inl (by simp [hm])
      · rcases ih false c hm with hm2 | hm2
        · exact Or.inl (List.mem_cons_of_mem c0 hm2)
        · exact Or.inr hm2

theorem stripDashes_subset (cs : List Char) : ∀ c ∈ stripDashes cs, c ∈ cs := by
  intro c hc
  unfold stripDashes at hc
  rw [List.mem_reverse] at hc
  have h1 := (List.dropWhile_sublist (fun c => c = '-')).subset hc
  rw [List.mem_reverse] at h1
  exact (List.dropWhile_sublist (fun c => c = '-')).subset h1

theorem noUpper_cleanName (cs : List Char) : noUpper (cleanName cs) := by
  unfold cleanName
  dsimp only
  have n1 : noUpper (asciiLowerL cs) := noUpper_asciiLowerL cs
  have n2 : noUpper (stripVendor (asciiLowerL cs)) :=
    noUpper_of_subset _ _ (fun c hc => Or.inl (stripVendor_subset _ c hc)) n1
  have n3 : noUpper (stripSufTags (stripVendor (asciiLowerL cs))) :=
    noUpper_of_subset _ _ (fun c hc => Or.inl (stripSufTags_subset _ c hc)) n2
  have n4 : noUpper ((stripSufTags (stripVendor (asciiLowerL cs))).map sepToDash) := by
    refine noUpper_of_subset _ _ (fun c hc => ?_) n3
    obtain ⟨c0, hc0, hec⟩ := List.mem_map.mp hc
    rcases sepToDash_or c0 with he | he
    · exact Or.inl (by rw [← hec, he]; exact hc0)
    · exact Or.inr (by rw [← hec, he])
  have n5 : noUpper (collapseRuns (fun c => c = '_' || isWsChar c) '-'
      ((stripSufTags (stripVendor (asciiLowerL cs))).map sepToDash) false) :=
    noUpper_of_subset _ _ (collapseRuns_subset _ _ _ _) n4
  have n6 : noUpper (collapseRuns (fun c => c = '-') '-'
      (collapseRuns (fun c => c = '_' || isWsChar c) '-'
        ((stripSufTags (stripVendor (asciiLowerL cs))).map sepToDash) false) false) :=
    noUpper_of_subset _ _ (collapseRuns_subset _ _ _ _) n5
  exact noUpper_of_subset _ _ (fun c hc => Or.inl (stripDashes_subset _ c hc)) n6

theorem startsWithL_self (l : List Char) : startsWithL l l = true := by
  induction l with
  | nil => rfl
  | cons c rest ih => simp [startsWithL, ih]

theorem containsSub_self (l : List Char) : containsSub l l = true := by
  cases l with
  | nil => rfl
  | cons c rest => simp [containsSub, startsWithL_self]

/-- C8 (counterexample): `"FP8"` is non-empty and matches no pattern
rule, but its cleaned form is the EMPTY string (the suffix tag `fp8`
swallows it whole), and the code then falls back to the stripped
original `"FP8"` — not to the cleaned string as the claim states. -/
theorem c8_counterexample :
    canonicalize_model_name (.str "FP8") = "FP8" ∧
    cleanName (trimWs ("FP8" : String).data) = [] ∧
    ("FP8" : String) ≠ String.mk [] := by
  exact ⟨by decide, by decide, by decide⟩

/-- C8 (amended): for every non-empty raw name whose CLEANED form is
non-empty and matches none of the three pattern rules, the cleaned
string itself is the canonical id, and its display name replaces the
dashes with spaces; when cleaning yields the empty string the stripped
original is returned instead (the counterexample above). -/
theorem c8_amended_fallback (raw : String) (h0 : raw ≠ "")
    (hne : cleanName (trimWs raw.data) ≠ [])
    (h1 : llamaRule (cleanName (trimWs raw.data)) = false)
    (h2 : deepseekRule (cleanName (trimWs raw.data)) = false)
    (h3 : gptOssRule (cleanName (trimWs raw.data)) = false) :
    canonicalize_model_name (.str raw) = String.mk (cleanName (trimWs raw.data)) ∧
    display_name_for_canonical (String.mk (cleanName (trimWs raw.data)))
      = String.mk ((cleanName (trimWs raw.data)).map
          fun c => if c = '-' then ' ' else c) := by
  constructor
  · unfold canonicalize_model_name
    have ht : pyTruthy (.str raw) = true := by
      simp [pyTruthy, h0]
    rw [ht]
    dsimp only [pyStrL]
    rw [h1, h2, h3]
    have hemp : (cleanName (trimWs raw.data)).isEmpty = false := by
      cases hcl : cleanName (trimWs raw.data) with
      | nil => exact absurd hcl hne
      | cons c rest => rfl
    rw [hemp]
    rfl
  · have hnu := noUpper_cleanName (trimWs raw.data)
    have hL : ¬(("Llama-3.3-70B-Instruct" : String)
        = String.mk (cleanName (trimWs raw.data))) := by
      intro he
      have hdata : ("Llama-3.3-70B-Instruct" : String).data
          = cleanName (trimWs raw.data) := congrArg String.data he
      have hmem : 'L' ∈ cleanName (trimWs raw.data) := by
        rw [← hdata]
        decide
      exact hnu 'L' hmem (by decide)
    have hD : ¬(("DeepSeek-R1-0528" : String)
        = String.mk (cleanName (trimWs raw.data))) := by
      intro he
      have hdata : ("DeepSeek-R1-0528" : String).data
          = cleanName (trimWs raw.data) := congrArg String.data he
      have hmem : 'D' ∈ cleanName (trimWs raw.data) := by
        rw [← hdata]
        decide
      exact hnu 'D' hmem (by decide)
    have hG : ¬(("gpt-oss-120b" : String)
        = String.mk (cleanName (trimWs raw.data))) := by
      intro he
      have hdata : cleanName (trimWs raw.data) = ("gpt-oss-120b" : String).data :=
        (congrArg String.data he).symm
      have : gptOssRule (cleanName (trimWs raw.data)) = true := by
        unfold gptOssRule
        rw [hdata]
        rw [containsSub_self]
        rfl
      rw [h3] at this
      exact Bool.false_ne_true this
    unfold display_name_for_canonical
    rw [show DISPLAY_MAP.find?
        (fun kv => kv.1 = String.mk (cleanName (trimWs raw.data))) = none by
      simp [DISPLAY_MAP, List.find?, hL, hD, hG]]

/-- C8 witness: `"my-model"` cleans to itself, matches no rule, becomes
its own canonical id, and displays as `"my model"`. -/
theorem c8_amended_witness :
    canonicalize_model_name (.str "my-model")
        = String.mk (cleanName (trimWs ("my-model" : String).data)) ∧
    display_name_for_canonical
        (String.mk (cleanName (trimWs ("my-model" : String).data)))
      = String.mk ((cleanName (trimWs ("my-model" : String).data)).map
          fun c => if c = '-' then ' ' else c) ∧
    String.mk (cleanName (trimWs ("my-model" : String).data)) = "my-model" ∧
    String.mk ((cleanName (trimWs ("my-model" : String).data)).map
        fun c => if c = '-' then ' ' else c) = "my model" := by
  have h := c8_amended_fallback "my-model" (by decide) (by decide) (by decide)
    (by decide) (by decide)
  exact ⟨h.1, h.2, by decide, by decide⟩

end InfMax
